import Mathlib

/-!
Verification of the core analysis pipeline of the pr-review-app CLI
(package `collect`: ParsePatch, AnalyzeFile; package `lsp`: the JSON-RPC
client, URIFromFile / FileFromURI, FindReferences).

Go strings are modelled as `List Char` (the byte/rune distinction does not
matter on the ASCII inputs involved); top-level entry points take a Lean
`String` and convert via `String.data`.  Short Go string literals such as
"@@" are written as explicit character lists. -/

/-- Go strings are modelled as lists of characters. -/
abbrev Str := List Char

/-- Models strings.HasPrefix from the Go standard library:
HasPrefix(s, pre) reports whether s begins with pre. -/
def startsWith (s pre : Str) : Bool :=
  match pre, s with
  | [], _ => true
  | _ :: _, [] => false
  | p :: ps, c :: cs => p == c && startsWith cs ps

/-- Models strings.HasSuffix from the Go standard library. -/
def endsWith (s suf : Str) : Bool :=
  startsWith s.reverse suf.reverse

/-- Models strings.TrimPrefix: returns s without the leading pre when
present, otherwise s unchanged. -/
def trimPre (s pre : Str) : Str :=
  if startsWith s pre then s.drop pre.length else s

/-- Models strings.Split(s, newline): the segments of s between
occurrences of the newline character.  Splitting the empty string gives
one empty segment, as in Go. -/
def splitLines : Str → List Str
  | [] => [[]]
  | c :: cs =>
    if c = '\n' then [] :: splitLines cs
    else
      match splitLines cs with
      | [] => [[c]]
      | l :: ls => (c :: l) :: ls

/-- Numeric value of a list of decimal digits, as strconv.Atoi computes it
for an all-digit string (machine-int overflow is not modelled; the claims
are settled on inputs far below the int64 range). -/
def digitsVal (ds : Str) : Nat :=
  ds.foldl (fun n c => n * 10 + (c.toNat - '0'.toNat)) 0

/-- Consume the literal pre at the front of cs, or fail. -/
def expect (pre cs : Str) : Option Str :=
  if startsWith cs pre then some (cs.drop pre.length) else none

/-- Consume the optional regex group of a comma followed by one or more
digits.  When a comma is present but followed by no digit the whole match
fails: the regex engine would skip the group and then require a space
literal, which the comma is not. -/
def skipOptCommaDigits (cs : Str) : Option Str :=
  match cs with
  | ',' :: rest =>
    match rest.takeWhile Char.isDigit with
    | [] => none
    | _ => some (rest.dropWhile Char.isDigit)
  | _ => some cs

/-- Models matching the Go regular expression
`^@@ -\d+(?:,\d+)? \+(\d+)(?:,(\d+))? @@`
against a line and extracting capture group 1 (the new-range start).  The
pattern is not anchored at the end, so arbitrary text may follow the
closing marker.  Backtracking never matters: every run of digits is
followed by a non-digit literal. -/
def parseHunkHeader (line : Str) : Option Nat :=
  match expect ['@', '@', ' ', '-'] line with
  | none => none
  | some cs =>
    match cs.takeWhile Char.isDigit with
    | [] => none
    | _ =>
      let cs1 := cs.dropWhile Char.isDigit
      match skipOptCommaDigits cs1 with
      | none => none
      | some cs2 =>
        match expect [' ', '+'] cs2 with
        | none => none
        | some cs3 =>
          match cs3.takeWhile Char.isDigit with
          | [] => none
          | ds =>
            let cs4 := cs3.dropWhile Char.isDigit
            match skipOptCommaDigits cs4 with
            | none => none
            | some cs5 =>
              match expect [' ', '@', '@'] cs5 with
              | none => none
              | some _ => some (digitsVal ds)

/-- One iteration of the line loop of collect.ParsePatch, on the state
(currentLine, lines).  A hunk-header line resets the counter to the
declared new-range start; a line beginning with a plus appends the current
counter value and increments it; a line beginning with a space only
increments it; every other line (including minus lines) is a no-op. -/
def parsePatchStep (st : Nat × List Nat) (line : Str) : Nat × List Nat :=
  if startsWith line ['@', '@'] then
    match parseHunkHeader line with
    | some start => (start, st.2)
    | none => st
  else if startsWith line ['+'] then (st.1 + 1, st.2 ++ [st.1])
  else if startsWith line [' '] then (st.1 + 1, st.2)
  else st

/-- Models collect.ParsePatch.  The Go function also returns an error that
is nil on every path, so the error component is elided. -/
def ParsePatch (patch : String) : List Nat :=
  ((splitLines patch.data).foldl parsePatchStep (0, [])).2

/-! ### Symbol span extraction (collect.AnalyzeFile)

The tree-sitter parser is an external library; its parse result is
abstracted as a function `descendant` mapping a 0-based row to the chain
of nodes from the smallest named node covering (row, column 0) up to the
root — the Go code reaches the ancestors through Node.Parent().  The name
child of a node carries its content directly, abstracting Node.Content
over the file bytes. -/

/-- The child of a declaration node under the field name "name"
(Node.ChildByFieldName), with its content and start point. -/
structure NameNode where
  text : Str
  row : Nat
  col : Nat
deriving DecidableEq

/-- The fields of a tree-sitter node that collect.AnalyzeFile reads. -/
structure NodeData where
  nodeType : Str
  startByte : Nat
  endByte : Nat
  startRow : Nat
  endRow : Nat
  nameChild : Option NameNode
deriving DecidableEq

/-- types.Reference.  Context and ContextStartLine are owned by the server
layer; the lsp query loop leaves them at their zero values. -/
structure Reference where
  Path : Str
  Line : Nat
  Start : Nat
  End : Nat
  Context : Str
  ContextStartLine : Nat
deriving DecidableEq

/-- types.ChangedSpan. -/
structure ChangedSpan where
  Name : Str
  Kind : Str
  Start : Nat
  End : Nat
  RefLine : Nat
  RefCol : Nat
  References : List Reference
deriving DecidableEq, Inhabited

/-- The allow-list tested by collect.findEnclosingSymbol (its Go branch
and its TypeScript/JavaScript branch merged, exactly as in the source,
where function_declaration appears in both). -/
def isSymbolNodeType (t : Str) : Bool :=
  t == "function_declaration".data || t == "method_declaration".data ||
  t == "type_spec".data ||
  t == "class_declaration".data || t == "interface_declaration".data ||
  t == "method_definition".data || t == "variable_declarator".data

/-- Models collect.findEnclosingSymbol: walk the ancestor chain upward
until a node of interest is found. -/
def findEnclosingSymbol : List NodeData → Option NodeData
  | [] => none
  | n :: anc =>
    if isSymbolNodeType n.nodeType then some n else findEnclosingSymbol anc

/-- Models collect.getNodeName.  In the source both the switch over
declaration types and the fallback after it look up the same "name" child
field; the net effect is the content of the name child when that child
exists, otherwise the type string of the node with no name node. -/
def getNodeName (node : NodeData) : Str × Option NameNode :=
  match node.nameChild with
  | some nn => (nn.text, some nn)
  | none => (node.nodeType, none)

/-- Decimal rendering of a number, as fmt.Sprintf with a %d verb emits it. -/
def natStr (n : Nat) : Str := (Nat.repr n).data

/-- The deduplication key fmt.Sprintf("%s-%d-%d", Type, StartByte, EndByte). -/
def spanKey (n : NodeData) : Str :=
  n.nodeType ++ ('-' :: natStr n.startByte) ++ ('-' :: natStr n.endByte)

/-- One iteration of the changed-line loop of collect.AnalyzeFile on the
state (seen, spans), with each produced span paired with the declaration
node it came from.  Changed lines are 1-based and converted to a 0-based
row (the Go conversion of line 0 wraps in uint32 arithmetic while Nat
subtraction truncates; the results below quantify over every descendant
function, so they hold under either reading). -/
def analyzeStep (descendant : Nat → Option (List NodeData))
    (st : List Str × List (NodeData × ChangedSpan)) (line : Nat) :
    List Str × List (NodeData × ChangedSpan) :=
  match descendant (line - 1) with
  | none => st
  | some path =>
    match findEnclosingSymbol path with
    | none => st
    | some symbolNode =>
      let key := spanKey symbolNode
      if key ∈ st.1 then st
      else
        let nameRes := getNodeName symbolNode
        let refLine := match nameRes.2 with
          | some nn => nn.row
          | none => 0
        let refCol := match nameRes.2 with
          | some nn => nn.col
          | none => 0
        (key :: st.1,
          st.2 ++ [(symbolNode,
            { Name := nameRes.1, Kind := symbolNode.nodeType,
              Start := symbolNode.startRow + 1, End := symbolNode.endRow + 1,
              RefLine := refLine, RefCol := refCol, References := [] })])

/-- The changed-line loop of collect.AnalyzeFile, keeping each span paired
with its underlying declaration node. -/
def analyzeFileAux (descendant : Nat → Option (List NodeData))
    (changedLines : List Nat) : List (NodeData × ChangedSpan) :=
  (changedLines.foldl (analyzeStep descendant) ([], [])).2

/-- Models collect.AnalyzeFile for a file whose language is supported and
whose content parses (otherwise the Go function returns nil spans, or an
error, before reaching the loop). -/
def AnalyzeFile (descendant : Nat → Option (List NodeData))
    (changedLines : List Nat) : List ChangedSpan :=
  (analyzeFileAux descendant changedLines).map Prod.snd

/-! ### The protocol client (package lsp)

State of one lsp.Client: the request sequence counter, the key set of the
pending map, and the channels created by Call, keyed by the request id
they were registered under, with their buffered content (none = nothing
delivered yet).  A channel outlives the deletion of its pending-map entry,
so the two are tracked separately. -/

/-- json.RawMessage, abstracted as opaque text. -/
abbrev RawMessage := Str

structure ClientState where
  seq : Nat
  pending : List Nat
  chans : List (Nat × Option RawMessage)
deriving DecidableEq

/-- Models the registration phase of Client.Call (performed under c.mu):
increment the sequence counter, take its value as the request id, create a
fresh channel and enter it into the pending map under that id. -/
def callRegister (s : ClientState) : ClientState × Nat :=
  ({ seq := s.seq + 1, pending := (s.seq + 1) :: s.pending,
     chans := (s.seq + 1, none) :: s.chans }, s.seq + 1)

/-- Models the timeout arm of the select in Client.Call: an error is
returned and no state is touched — in particular the pending entry
registered for this call is not deleted. -/
def callOnTimeout (s : ClientState) (method : Str) : ClientState × Option Str :=
  (s, some ("timeout waiting for response to ".data ++ method))

/-- One Call whose peer never responds: registration followed by the
timeout arm of the select. -/
def callNoResponse (s : ClientState) (method : Str) : ClientState × Option Str :=
  callOnTimeout (callRegister s).1 method

/-- Deliver r into the channel keyed id (ch <- msg.Result for the channel
fetched from the pending map). -/
def setAssoc : List (Nat × Option RawMessage) → Nat → Option RawMessage →
    List (Nat × Option RawMessage)
  | [], _, _ => []
  | (k, v) :: rest, id, r =>
    if k = id then (k, r) :: rest else (k, v) :: setAssoc rest id r

/-- Channel lookup by request id. -/
def lookupAssoc : List (Nat × Option RawMessage) → Nat → Option (Option RawMessage)
  | [], _ => none
  | (k, v) :: rest, id => if k = id then some v else lookupAssoc rest id

/-- Models the response dispatch of Client.readLoop for one decoded
envelope: without a numeric id nothing happens; with one, the pending
entry is looked up under the lock and, when present, deleted and its
channel receives the raw result; an id with no registration is silently
discarded. -/
def handleMessage (s : ClientState) (msgId : Option Nat) (result : RawMessage) :
    ClientState :=
  match msgId with
  | none => s
  | some id =>
    if id ∈ s.pending then
      { s with pending := s.pending.erase id,
               chans := setAssoc s.chans id (some result) }
    else s

/-! ### URI translation and FindReferences (package lsp) -/

/-- Models lsp.URIFromFile.  filepath.Abs consults the process working
directory and is abstracted as a parameter; it is applied only on the
relative-path branch. -/
def URIFromFile (abs : Str → Str) (path : Str) : Str :=
  let p := if startsWith path ['/'] then path else abs path
  "file://".data ++ p

/-- Models lsp.FileFromURI: trim the file scheme. -/
def FileFromURI (uri : Str) : Str := trimPre uri ("file://".data)

/-- lsp.Location with its nested Range flattened; uri, the start position
and the end character are the fields FindReferences reads. -/
structure Location where
  uri : Str
  startLine : Nat
  startChar : Nat
  endLine : Nat
  endChar : Nat
deriving DecidableEq

/-- The effectful collaborators of lsp.FindReferences, abstracted: whether
NewClient succeeds, whether the initialize Call succeeds, and, for the
span at index i, the decoded location list of its textDocument/references
Call (none = Call error or json.Unmarshal error, which the loop skips
identically).  The initialized and didOpen notifications, the disk read
and Close do not influence the returned spans. -/
structure LspOracle where
  spawnOk : Bool
  initOk : Bool
  refs : Nat → Option (List Location)

/-- One types.Reference as the query loop builds it: the location URI
translated by FileFromURI, the 0-based line converted to 1-based, and the
start and end characters of the range. -/
def mkReference (loc : Location) : Reference :=
  { Path := FileFromURI loc.uri, Line := loc.startLine + 1,
    Start := loc.startChar, End := loc.endChar,
    Context := [], ContextStartLine := 0 }

/-- The body of the query loop for the span at index i: a span whose
anchor is (0,0) is not queried; a failed query leaves the span untouched;
a successful one appends one Reference per returned location. -/
def querySpan (oracle : LspOracle) (i : Nat) (span : ChangedSpan) : ChangedSpan :=
  if span.RefLine = 0 ∧ span.RefCol = 0 then span
  else
    match oracle.refs i with
    | none => span
    | some locs =>
      { span with References := span.References ++ locs.map mkReference }

/-- The indexed loop over the spans (for i, span := range spans). -/
def queryLoop (oracle : LspOracle) : Nat → List ChangedSpan → List ChangedSpan
  | _, [] => []
  | i, span :: rest => querySpan oracle i span :: queryLoop oracle (i + 1) rest

/-- The extension dispatch at the top of lsp.FindReferences: the analyzer
command and its arguments, or none for an unsupported extension. -/
def selectAnalyzer (filePath : Str) : Option (Str × List Str) :=
  if endsWith filePath (".go".data) then some ("gopls".data, [])
  else if endsWith filePath (".ts".data) || endsWith filePath (".tsx".data)
      || endsWith filePath (".js".data) then
    some ("typescript-language-server".data, ["--stdio".data])
  else none

/-- Models lsp.FindReferences: the returned spans and error.  An
unsupported extension returns the input spans with no error; a spawn or
initialize failure returns them with an error; otherwise the query loop
runs over the spans in order. -/
def FindReferences (oracle : LspOracle) (spans : List ChangedSpan)
    (filePath : Str) : List ChangedSpan × Option Str :=
  match selectAnalyzer filePath with
  | none => (spans, none)
  | some _ =>
    if oracle.spawnOk = false then (spans, some ("failed to start lsp".data))
    else if oracle.initOk = false then
      (spans, some ("failed to initialize lsp".data))
    else (queryLoop oracle 0 spans, none)

/-- A span with its references removed: equality of two spans after
stripRefs says they agree in every field except References. -/
def stripRefs (span : ChangedSpan) : ChangedSpan := { span with References := [] }

/-! ### Concrete inputs used by the witnesses -/

/-- A function declaration node used by witnesses. -/
def wNode : NodeData :=
  { nodeType := "function_declaration".data, startByte := 10, endByte := 50,
    startRow := 9, endRow := 11, nameChild := some ⟨"foo".data, 9, 5⟩ }

/-- A descendant function placing rows 0 and 1 inside wNode. -/
def wDesc : Nat → Option (List NodeData) :=
  fun r => if r ≤ 1 then some [wNode] else none

/-- A client with one pending call, id 1. -/
def wClient : ClientState := ⟨1, [1], [(1, none)]⟩

/-- Two locations in two different files. -/
def wLoc1 : Location := ⟨"file:///w/a.go".data, 4, 2, 4, 7⟩

def wLoc2 : Location := ⟨"file:///w/b.go".data, 9, 0, 9, 3⟩

/-- A span with a non-trivial anchor and no references yet. -/
def wSpan : ChangedSpan :=
  { Name := "foo".data, Kind := "function_declaration".data, Start := 10,
    End := 12, RefLine := 9, RefCol := 5, References := [] }

/-- An analyzer that answers every reference query with wLoc1 and wLoc2. -/
def wOracle : LspOracle := ⟨true, true, fun _ => some [wLoc1, wLoc2]⟩

example : ParsePatch "@@ -1,2 +10,3 @@\n a\n+b\n+c\n-d" = [11, 12] := by decide

example : ParsePatch "@@ -1,2 +1,2 @@\n ctx\n+add" = [2] := by decide

example : ParsePatch "+x" = [0] := by decide

/-! ### Lemmas about the ParsePatch fold -/

@[simp] theorem startsWith_nil (s : Str) : startsWith s [] = true := by
  cases s <;> rfl

@[simp] theorem startsWith_cons_nil (p : Char) (ps : Str) :
    startsWith [] (p :: ps) = false := rfl

@[simp] theorem startsWith_cons_cons (c p : Char) (cs ps : Str) :
    startsWith (c :: cs) (p :: ps) = (p == c && startsWith cs ps) := rfl

theorem startsWith_disjoint (l : Str) (a b : Char) (pa pb : Str)
    (hab : (b == a) = false) (h : startsWith l (a :: pa) = true) :
    startsWith l (b :: pb) = false := by
  cases l with
  | nil => exact startsWith_cons_nil b pb
  | cons c cs =>
    rw [startsWith_cons_cons] at h
    have h1 : (a == c) = true ∧ startsWith cs pa = true := by simpa using h
    have hca : a = c := beq_iff_eq.mp h1.1
    subst hca
    rw [startsWith_cons_cons, hab, Bool.false_and]

theorem startsWith_atat_not_plus (l : Str)
    (h : startsWith l ['@', '@'] = true) :
    startsWith l ['+'] = false :=
  startsWith_disjoint l '@' '+' ['@'] [] (by decide) h

theorem startsWith_of_startsWith_append (s p q : Str)
    (h : startsWith s (p ++ q) = true) : startsWith s p = true := by
  induction p generalizing s with
  | nil => exact startsWith_nil s
  | cons a ps ih =>
    cases s with
    | nil =>
      rw [List.cons_append, startsWith_cons_nil] at h
      exact absurd h (by simp)
    | cons c cs =>
      rw [List.cons_append, startsWith_cons_cons] at h
      have h' : (a == c) = true ∧ startsWith cs (ps ++ q) = true := by simpa using h
      rw [startsWith_cons_cons, h'.1, ih cs h'.2]
      rfl

theorem startsWith_of_expect (pre cs r : Str) (h : expect pre cs = some r) :
    startsWith cs pre = true := by
  unfold expect at h
  by_cases hs : startsWith cs pre = true
  · exact hs
  · simp [hs] at h

theorem parseHunkHeader_atat (l : Str) (s : Nat)
    (h : parseHunkHeader l = some s) :
    startsWith l ['@', '@'] = true := by
  unfold parseHunkHeader at h
  cases hx : expect ['@', '@', ' ', '-'] l with
  | none => rw [hx] at h; simp at h
  | some cs =>
    have h4 : startsWith l ['@', '@', ' ', '-'] = true :=
      startsWith_of_expect _ _ _ hx
    exact startsWith_of_startsWith_append l ['@', '@'] [' ', '-'] h4

theorem parsePatchStep_decomp (c : Nat) (acc : List Nat) (l : Str) :
    parsePatchStep (c, acc) l
      = ((parsePatchStep (c, []) l).1, acc ++ (parsePatchStep (c, []) l).2) := by
  cases hA : startsWith l ['@', '@'] with
  | false =>
    cases hB : startsWith l ['+'] <;>
      cases hC : startsWith l [' '] <;>
        simp [parsePatchStep, hA, hB, hC]
  | true =>
    cases hH : parseHunkHeader l <;> simp [parsePatchStep, hA, hH]

theorem foldl_parsePatchStep_decomp (ls : List Str) (c : Nat) (acc : List Nat) :
    ls.foldl parsePatchStep (c, acc)
      = ((ls.foldl parsePatchStep (c, [])).1,
          acc ++ (ls.foldl parsePatchStep (c, [])).2) := by
  induction ls generalizing c acc with
  | nil => simp
  | cons l ls ih =>
    simp only [List.foldl_cons]
    rw [parsePatchStep_decomp c acc l]
    rcases hstep : parsePatchStep (c, []) l with ⟨c1, e⟩
    show List.foldl parsePatchStep (c1, acc ++ e) ls
      = ((List.foldl parsePatchStep (c1, e) ls).1,
          acc ++ (List.foldl parsePatchStep (c1, e) ls).2)
    rw [ih c1 (acc ++ e), ih c1 e]
    simp [List.append_assoc]

theorem parsePatchStep_emit_length (c : Nat) (l : Str) :
    ((parsePatchStep (c, []) l).2).length
      = (if startsWith l ['+'] then 1 else 0) := by
  cases hA : startsWith l ['@', '@'] with
  | true =>
    have hplus := startsWith_atat_not_plus l hA
    cases hH : parseHunkHeader l <;> simp [parsePatchStep, hA, hH, hplus]
  | false =>
    cases hB : startsWith l ['+'] <;>
      cases hC : startsWith l [' '] <;>
        simp [parsePatchStep, hA, hB, hC]

theorem foldl_parsePatchStep_length (ls : List Str) (c : Nat) :
    ((ls.foldl parsePatchStep (c, [])).2).length
      = List.countP (fun l => startsWith l ['+']) ls := by
  induction ls generalizing c with
  | nil => simp
  | cons l ls ih =>
    rw [List.countP_cons]
    simp only [List.foldl_cons]
    rcases hstep : parsePatchStep (c, []) l with ⟨c1, e⟩
    have hlen : e.length = if startsWith l ['+'] then 1 else 0 := by
      have h0 := parsePatchStep_emit_length c l
      rw [hstep] at h0
      exact h0
    rw [foldl_parsePatchStep_decomp ls c1 e]
    show (e ++ (ls.foldl parsePatchStep (c1, [])).2).length
      = List.countP (fun l => startsWith l ['+']) ls
        + if startsWith l ['+'] then 1 else 0
    rw [List.length_append, hlen, ih c1]
    exact Nat.add_comm _ _

theorem foldl_parsePatchStep_skip (pre : List Str) (c : Nat)
    (h : ∀ l ∈ pre,
      startsWith l ['@', '@'] = false ∧ startsWith l ['+'] = false) :
    pre.foldl parsePatchStep (c, [])
      = (c + List.countP (fun l => startsWith l [' ']) pre, []) := by
  induction pre generalizing c with
  | nil => simp
  | cons l ls ih =>
    have hl := h l (by simp)
    have hrest : ∀ l' ∈ ls,
        startsWith l' ['@', '@'] = false ∧ startsWith l' ['+'] = false :=
      fun l' hl' => h l' (by simp [hl'])
    simp only [List.foldl_cons, List.countP_cons]
    cases hC : startsWith l [' '] with
    | true =>
      rw [show parsePatchStep (c, []) l = (c + 1, []) by
        simp [parsePatchStep, hl.1, hl.2, hC]]
      rw [ih (c + 1) hrest, Prod.ext_iff]
      refine ⟨?_, rfl⟩
      simp only [hC, if_true]
      omega
    | false =>
      rw [show parsePatchStep (c, []) l = (c, []) by
        simp [parsePatchStep, hl.1, hl.2, hC]]
      rw [ih c hrest, Prod.ext_iff]
      refine ⟨?_, rfl⟩
      simp [hC]

theorem parsePatchStep_header (l : Str) (s : Nat) (c : Nat) (acc : List Nat)
    (h : parseHunkHeader l = some s) :
    parsePatchStep (c, acc) l = (s, acc) := by
  have hA := parseHunkHeader_atat l s h
  simp [parsePatchStep, hA, h]

/-! ### Claim C1 -/

/-- C1, counterexample: on the patch `@@ -1,2 +1,2 @@\n ctx\n+add` the
code emits one number (for the single plus line), while the claim predicts
two (one per addition-or-context line): context lines advance the counter
without emitting. -/
theorem C1_counterexample :
    (ParsePatch "@@ -1,2 +1,2 @@\n ctx\n+add").length = 1 ∧
    List.countP
      (fun l => (startsWith l ['+'] && !startsWith l ['+', '+', '+'])
        || startsWith l [' '])
      (splitLines ("@@ -1,2 +1,2 @@\n ctx\n+add").data) = 2 := by
  constructor
  · decide
  · decide

/-- C1, amended: ParsePatch returns one new-file line number per line
beginning with a plus (file headers beginning `+++` included); context
(space) lines only advance the counter, so the output length equals the
count of plus-prefixed lines, not of addition-and-context lines. -/
theorem C1_parsePatch_length (patch : String) :
    (ParsePatch patch).length
      = List.countP (fun l => startsWith l ['+']) (splitLines patch.data) := by
  unfold ParsePatch
  exact foldl_parsePatchStep_length _ 0

/-! ### Claim C6 -/

/-- C6, counterexample: the patch `+x` contains no hunk-header line, yet
ParsePatch returns the non-empty list [0], because a plus line emits the
counter (still at its initial value 0) even before any header. -/
theorem C6_counterexample :
    (∀ l ∈ splitLines ("+x".data), startsWith l ['@', '@'] = false) ∧
    ParsePatch "+x" ≠ [] := by
  decide

/-- C6, amended: ParsePatch on a patch containing no hunk-header line and
no line beginning with a plus returns the empty list (and the Go error
result is nil on every input). -/
theorem C6_headerless_empty (patch : String)
    (h : ∀ l ∈ splitLines patch.data,
      startsWith l ['@', '@'] = false ∧ startsWith l ['+'] = false) :
    ParsePatch patch = [] := by
  have hc : List.countP (fun l => startsWith l ['+']) (splitLines patch.data)
      = 0 := by
    refine List.countP_eq_zero.mpr ?_
    intro l hl
    simp [(h l hl).2]
  have hlen : (ParsePatch patch).length = 0 := by
    unfold ParsePatch
    rw [foldl_parsePatchStep_length]
    exact hc
  exact List.eq_nil_of_length_eq_zero hlen

/-- Witness for C6: a headerless patch with only deletion and other lines
yields the empty list. -/
theorem C6_witness : ParsePatch "-a\ncontext" = [] :=
  C6_headerless_empty "-a\ncontext" (by decide)

/-! ### Claim C7 -/

/-- C7, counterexample: in the single-hunk patch
`@@ -5,3 +7,3 @@\n a\n-b\n+c` the declared new-range start is 7, but the
first (and only) emitted number is 8: the context line before the plus
line advances the counter first. -/
theorem C7_counterexample :
    parseHunkHeader ("@@ -5,3 +7,3 @@".data) = some 7 ∧
    (ParsePatch "@@ -5,3 +7,3 @@\n a\n-b\n+c").head? = some 8 ∧
    (ParsePatch "@@ -5,3 +7,3 @@\n a\n-b\n+c").head? ≠ some 7 := by
  refine ⟨by decide, by decide, by decide⟩

/-- C7, amended: for every hunk of every patch, the first number ParsePatch
emits for that hunk equals the new-range start s declared in the hunk
header plus the number of context (space-prefixed) lines preceding the
first plus line of the hunk (the original claim holds only when no context
line precedes the first addition).  The hunk is arbitrary: before is the
list of all patch lines preceding its header h, pre is its run of lines up
to its first plus line p (no further header and no plus line occurs in
pre, so p belongs to the hunk of h), and the conclusion splits the full
output as the emissions of before, then s plus the context count as the
first number this hunk emits, then the emissions of the remaining lines. -/
theorem C7_first_emitted (patch : String) (before : List Str) (h p : Str)
    (pre rest : List Str) (s : Nat)
    (hsplit : splitLines patch.data = before ++ h :: (pre ++ p :: rest))
    (hh : parseHunkHeader h = some s)
    (hpre : ∀ l ∈ pre,
      startsWith l ['@', '@'] = false ∧ startsWith l ['+'] = false)
    (hp : startsWith p ['+'] = true) :
    ParsePatch patch
      = (before.foldl parsePatchStep (0, [])).2
        ++ (s + List.countP (fun l => startsWith l [' ']) pre)
          :: (rest.foldl parsePatchStep
              (s + List.countP (fun l => startsWith l [' ']) pre + 1, [])).2 := by
  unfold ParsePatch
  rw [hsplit, List.foldl_append]
  rcases hb : before.foldl parsePatchStep (0, []) with ⟨cb, Eb⟩
  simp only [List.foldl_cons]
  rw [parsePatchStep_header h s cb Eb hh, List.foldl_append]
  have h1 : List.foldl parsePatchStep (s, Eb) pre
      = (s + List.countP (fun l => startsWith l [' ']) pre, Eb) := by
    rw [foldl_parsePatchStep_decomp pre s Eb, foldl_parsePatchStep_skip pre s hpre]
    simp
  rw [h1]
  simp only [List.foldl_cons]
  have hpA : startsWith p ['@', '@'] = false := by
    cases hA : startsWith p ['@', '@'] with
    | false => rfl
    | true =>
      have hcontra := startsWith_atat_not_plus p hA
      rw [hp] at hcontra
      exact absurd hcontra (by simp)
  have h2 : parsePatchStep
      (s + List.countP (fun l => startsWith l [' ']) pre, Eb) p
      = (s + List.countP (fun l => startsWith l [' ']) pre + 1,
          Eb ++ [s + List.countP (fun l => startsWith l [' ']) pre]) := by
    simp [parsePatchStep, hpA, hp]
  rw [h2]
  rw [foldl_parsePatchStep_decomp rest
        (s + List.countP (fun l => startsWith l [' ']) pre + 1)
        (Eb ++ [s + List.countP (fun l => startsWith l [' ']) pre])]
  simp [List.append_assoc]

/-- Witness for C7, instantiated at the SECOND hunk of a two-hunk patch:
its header declares start 7, one context line precedes its first plus
line, and the full output is the first-hunk emission [2] followed by
7 + 1 = 8. -/
theorem C7_witness :
    ParsePatch "@@ -1,2 +1,2 @@\n x\n+y\n@@ -5,3 +7,3 @@\n a\n-b\n+c"
      = (["@@ -1,2 +1,2 @@".data, " x".data, "+y".data].foldl
            parsePatchStep (0, [])).2
        ++ (7 + List.countP (fun l => startsWith l [' '])
              [" a".data, "-b".data])
          :: (([] : List Str).foldl parsePatchStep
              (7 + List.countP (fun l => startsWith l [' '])
                [" a".data, "-b".data] + 1, [])).2 :=
  C7_first_emitted "@@ -1,2 +1,2 @@\n x\n+y\n@@ -5,3 +7,3 @@\n a\n-b\n+c"
    ["@@ -1,2 +1,2 @@".data, " x".data, "+y".data]
    ("@@ -5,3 +7,3 @@".data) ("+c".data) [" a".data, "-b".data] [] 7
    (by decide) (by decide) (by decide) (by decide)

/-! ### Lemmas about the AnalyzeFile loop -/

theorem analyzeStep_inv (descendant : Nat → Option (List NodeData))
    (st : List Str × List (NodeData × ChangedSpan)) (line : Nat)
    (hmem : ∀ pr ∈ st.2, spanKey pr.1 ∈ st.1)
    (hpw : List.Pairwise (fun a b => spanKey a.1 ≠ spanKey b.1) st.2) :
    (∀ pr ∈ (analyzeStep descendant st line).2,
      spanKey pr.1 ∈ (analyzeStep descendant st line).1) ∧
    List.Pairwise (fun a b => spanKey a.1 ≠ spanKey b.1)
      (analyzeStep descendant st line).2 := by
  unfold analyzeStep
  split
  · exact ⟨hmem, hpw⟩
  · split
    · exact ⟨hmem, hpw⟩
    · rename_i path hd sym hf
      by_cases hk : spanKey sym ∈ st.1
      · simp only [hk, if_true]
        exact ⟨hmem, hpw⟩
      · simp only [hk, if_false]
        constructor
        · intro pr hpr
          rcases List.mem_append.mp hpr with hin | hin
          · exact List.mem_cons_of_mem _ (hmem pr hin)
          · rw [List.mem_singleton.mp hin]
            exact List.mem_cons_self _ _
        · rw [List.pairwise_append]
          refine ⟨hpw, by simp, ?_⟩
          intro a ha b hb
          rw [List.mem_singleton.mp hb]
          intro heq
          exact hk (heq ▸ hmem a ha)

theorem analyzeFold_inv (descendant : Nat → Option (List NodeData))
    (lines : List Nat) (st : List Str × List (NodeData × ChangedSpan))
    (hmem : ∀ pr ∈ st.2, spanKey pr.1 ∈ st.1)
    (hpw : List.Pairwise (fun a b => spanKey a.1 ≠ spanKey b.1) st.2) :
    (∀ pr ∈ (lines.foldl (analyzeStep descendant) st).2,
      spanKey pr.1 ∈ (lines.foldl (analyzeStep descendant) st).1) ∧
    List.Pairwise (fun a b => spanKey a.1 ≠ spanKey b.1)
      (lines.foldl (analyzeStep descendant) st).2 := by
  induction lines generalizing st with
  | nil => exact ⟨hmem, hpw⟩
  | cons line rest ih =>
    simp only [List.foldl_cons]
    have hstep := analyzeStep_inv descendant st line hmem hpw
    exact ih (analyzeStep descendant st line) hstep.1 hstep.2

theorem analyzeFileAux_pairwise (descendant : Nat → Option (List NodeData))
    (changedLines : List Nat) :
    List.Pairwise (fun a b => spanKey a.1 ≠ spanKey b.1)
      (analyzeFileAux descendant changedLines) := by
  unfold analyzeFileAux
  exact (analyzeFold_inv descendant changedLines ([], [])
    (fun pr hpr => absurd hpr (List.not_mem_nil pr)) List.Pairwise.nil).2

/-! ### Claim C5 -/

/-- C5: the spans AnalyzeFile returns are deduplicated by the
(type, startByte, endByte) triple of their underlying declaration node: no
two produced spans come from nodes sharing that triple, and two changed
lines resolving to the same declaration yield exactly one ChangedSpan. -/
theorem C5_dedup (descendant : Nat → Option (List NodeData))
    (changedLines : List Nat) (l1 l2 : Nat) (path1 path2 : List NodeData)
    (n1 n2 : NodeData)
    (h1 : descendant (l1 - 1) = some path1)
    (he1 : findEnclosingSymbol path1 = some n1)
    (h2 : descendant (l2 - 1) = some path2)
    (he2 : findEnclosingSymbol path2 = some n2)
    (hkey : spanKey n1 = spanKey n2) :
    List.Pairwise (fun a b =>
      ¬(a.1.nodeType = b.1.nodeType ∧ a.1.startByte = b.1.startByte
        ∧ a.1.endByte = b.1.endByte))
      (analyzeFileAux descendant changedLines)
    ∧ (AnalyzeFile descendant [l1, l2]).length = 1 := by
  constructor
  · refine (analyzeFileAux_pairwise descendant changedLines).imp ?_
    intro a b hne htriple
    apply hne
    unfold spanKey
    rw [htriple.1, htriple.2.1, htriple.2.2]
  · simp [AnalyzeFile, analyzeFileAux, analyzeStep, h1, he1, h2, he2, ← hkey]

/-- Witness for C5: with both changed lines 1 and 2 inside the single
declaration wNode, the loop produces pairwise-distinct nodes and exactly
one span. -/
theorem C5_witness :
    List.Pairwise (fun a b =>
      ¬(a.1.nodeType = b.1.nodeType ∧ a.1.startByte = b.1.startByte
        ∧ a.1.endByte = b.1.endByte))
      (analyzeFileAux wDesc [1, 2])
    ∧ (AnalyzeFile wDesc [1, 2]).length = 1 :=
  C5_dedup wDesc [1, 2] 1 2 [wNode] [wNode] wNode wNode
    (by decide) (by decide) (by decide) (by decide) rfl

/-! ### Claim C2 -/

/-- C2: the code leaks the pending entry on timeout.  A Call whose peer
never responds does return an error, but the pending table afterwards is
one entry larger than before the call: the timeout arm of the select in
Client.Call deletes nothing, so the claimed "the pending-table entry is
removed, the table is no larger" fails on every state. -/
theorem C2_timeout_leak (s : ClientState) (method : Str) :
    ((callNoResponse s method).2).isSome = true ∧
    (callNoResponse s method).1.pending.length = s.pending.length + 1 := by
  constructor
  · rfl
  · simp [callNoResponse, callOnTimeout, callRegister]

/-! ### Claim C4 -/

theorem lookupAssoc_setAssoc_ne (l : List (Nat × Option RawMessage))
    (id j : Nat) (r : Option RawMessage) (hj : j ≠ id) :
    lookupAssoc (setAssoc l id r) j = lookupAssoc l j := by
  induction l with
  | nil => rfl
  | cons kv rest ih =>
    rcases kv with ⟨k, v⟩
    by_cases hk : k = id
    · subst hk
      simp only [setAssoc, if_pos rfl]
      have hkj : ¬(k = j) := fun hh => hj hh.symm
      simp only [lookupAssoc, if_neg hkj]
    · simp only [setAssoc, if_neg hk]
      by_cases hkj : k = j
      · simp only [lookupAssoc, if_pos hkj]
      · simp only [lookupAssoc, if_neg hkj, ih]

/-- C4: the dispatch done by the reader for one decoded envelope.  With no
numeric id
the state is untouched; an id with no pending registration is silently
discarded leaving everything unchanged; a registered id has exactly its
registration removed and its channel receive the result, while any other
id keeps its channel content and its pending membership — so two
concurrent Calls can never cross-deliver. -/
theorem C4_dispatch (s : ClientState) (id : Nat) (r : RawMessage) (j : Nat)
    (hj : j ≠ id) :
    handleMessage s none r = s ∧
    (id ∉ s.pending → handleMessage s (some id) r = s) ∧
    (id ∈ s.pending →
      (handleMessage s (some id) r).pending = s.pending.erase id ∧
      (handleMessage s (some id) r).chans = setAssoc s.chans id (some r) ∧
      lookupAssoc (handleMessage s (some id) r).chans j = lookupAssoc s.chans j ∧
      (j ∈ (handleMessage s (some id) r).pending ↔ j ∈ s.pending)) := by
  refine ⟨rfl, ?_, ?_⟩
  · intro hnot
    simp [handleMessage, hnot]
  · intro hmemb
    have hH : handleMessage s (some id) r
        = { s with pending := s.pending.erase id,
                   chans := setAssoc s.chans id (some r) } := by
      simp [handleMessage, hmemb]
    rw [hH]
    refine ⟨rfl, rfl, ?_, ?_⟩
    · exact lookupAssoc_setAssoc_ne s.chans id j (some r) hj
    · exact List.mem_erase_of_ne hj

/-- Witness for C4: on a client with pending id 1, delivering a response
for id 1 empties the pending table, fills channel 1, and leaves id 5
untouched; ids without registration are discarded. -/
theorem C4_witness :
    handleMessage wClient none ("ok".data) = wClient ∧
    (1 ∉ wClient.pending → handleMessage wClient (some 1) ("ok".data) = wClient) ∧
    (1 ∈ wClient.pending →
      (handleMessage wClient (some 1) ("ok".data)).pending
        = wClient.pending.erase 1 ∧
      (handleMessage wClient (some 1) ("ok".data)).chans
        = setAssoc wClient.chans 1 (some ("ok".data)) ∧
      lookupAssoc (handleMessage wClient (some 1) ("ok".data)).chans 5
        = lookupAssoc wClient.chans 5 ∧
      (5 ∈ (handleMessage wClient (some 1) ("ok".data)).pending
        ↔ 5 ∈ wClient.pending)) :=
  C4_dispatch wClient 1 ("ok".data) 5 (by decide)

/-! ### Claim C10 -/

theorem startsWith_append_self (pre s : Str) :
    startsWith (pre ++ s) pre = true := by
  induction pre with
  | nil => exact startsWith_nil _
  | cons a ps ih =>
    rw [List.cons_append, startsWith_cons_cons, ih]
    simp

/-- C10: for an absolute path p (beginning with a slash), FileFromURI
inverts URIFromFile, for every behaviour of the abstracted filepath.Abs. -/
theorem C10_uri_roundtrip (abs : Str → Str) (p : Str)
    (h : startsWith p ['/'] = true) :
    FileFromURI (URIFromFile abs p) = p := by
  unfold URIFromFile FileFromURI trimPre
  rw [h]
  simp only [if_true, startsWith_append_self]
  exact List.drop_left _ _

/-- Witness for C10: the round trip on /repo/main.go. -/
theorem C10_witness :
    FileFromURI (URIFromFile id ("/repo/main.go".data)) = "/repo/main.go".data :=
  C10_uri_roundtrip id ("/repo/main.go".data) (by decide)

/-! ### Claim C3 -/

theorem stripRefs_querySpan (oracle : LspOracle) (i : Nat) (span : ChangedSpan) :
    stripRefs (querySpan oracle i span) = stripRefs span := by
  unfold querySpan
  by_cases hskip : span.RefLine = 0 ∧ span.RefCol = 0
  · rw [if_pos hskip]
  · rw [if_neg hskip]
    cases oracle.refs i with
    | none => rfl
    | some locs => rfl

theorem queryLoop_map_stripRefs (oracle : LspOracle) (i : Nat)
    (ss : List ChangedSpan) :
    (queryLoop oracle i ss).map stripRefs = ss.map stripRefs := by
  induction ss generalizing i with
  | nil => rfl
  | cons sp rest ih =>
    simp only [queryLoop, List.map_cons, ih, stripRefs_querySpan]

/-- C3: FindReferences returns a span list of the same length and order,
in which every span agrees with its input on every field except
References, on every path (unsupported extension, spawn failure,
initialize failure, and the query loop with arbitrary per-span results,
including skipped (0,0) anchors and failed queries). -/
theorem C3_frame (oracle : LspOracle) (spans : List ChangedSpan)
    (filePath : Str) :
    ((FindReferences oracle spans filePath).1).map stripRefs
      = spans.map stripRefs := by
  unfold FindReferences
  cases hsel : selectAnalyzer filePath with
  | none => rfl
  | some cfg =>
    by_cases hspawn : oracle.spawnOk = false
    · simp [hspawn]
    · by_cases hinit : oracle.initOk = false
      · simp [hspawn, hinit]
      · simp only [hspawn, hinit, if_false]
        exact queryLoop_map_stripRefs oracle 0 spans

/-! ### Claim C9 -/

/-- C9: on a file whose extension is none of .go, .ts, .tsx, .js,
FindReferences returns the input spans unchanged with no error, for every
oracle — the result does not depend on any external process at all. -/
theorem C9_unsupported_identity (oracle : LspOracle) (spans : List ChangedSpan)
    (filePath : Str)
    (hgo : endsWith filePath (".go".data) = false)
    (hts : endsWith filePath (".ts".data) = false)
    (htsx : endsWith filePath (".tsx".data) = false)
    (hjs : endsWith filePath (".js".data) = false) :
    FindReferences oracle spans filePath = (spans, none) := by
  unfold FindReferences selectAnalyzer
  simp [hgo, hts, htsx, hjs]

/-- Witness for C9: a Python file is returned untouched. -/
theorem C9_witness :
    FindReferences wOracle [wSpan] ("main.py".data) = ([wSpan], none) :=
  C9_unsupported_identity wOracle [wSpan] ("main.py".data)
    (by decide) (by decide) (by decide) (by decide)

/-! ### Claim C8 -/

theorem queryLoop_getD (oracle : LspOracle) (ss : List ChangedSpan)
    (j i : Nat) (hi : i < ss.length) :
    (queryLoop oracle j ss).getD i default
      = querySpan oracle (j + i) (ss.getD i default) := by
  induction ss generalizing j i with
  | nil => simp at hi
  | cons sp rest ih =>
    cases i with
    | zero => simp [queryLoop]
    | succ m =>
      simp only [queryLoop, List.getD_cons_succ]
      have hm : m < rest.length := by simpa using hi
      rw [ih (j + 1) m hm]
      congr 1
      omega

/-- C8, counterexample: the claimed "Path is the file-scheme URI
translated back to a relative path" fails — the code only trims the
scheme.  With the analyzer answering locations in files /w/a.go and
/w/b.go (repository root /w), the produced Path values are the absolute
paths /w/a.go and /w/b.go: they begin with a slash and still carry the
root, so they are not relative paths. -/
theorem C8_counterexample :
    ((FindReferences wOracle [wSpan] ("x.go".data)).1.getD 0 default).References.map
        (fun r => r.Path)
      = ["/w/a.go".data, "/w/b.go".data]
    ∧ startsWith ("/w/a.go".data) ['/'] = true := by
  decide

/-- C8, amended: on the success path, for a span whose anchor is not
(0,0) and whose reference query decodes to a location list, the
References of the output span are the input ones with one Reference
appended per location, each built by mkReference: Path is FileFromURI of
the location URI — the URI with its file scheme trimmed, an absolute
path, with no relativization against the repository root — and Line is
the 0-based start line plus one; in particular two locations in two
different files yield two references. -/
theorem C8_references_appended (oracle : LspOracle) (spans : List ChangedSpan)
    (filePath : Str) (i : Nat) (locs : List Location)
    (hsel : (selectAnalyzer filePath).isSome = true)
    (hspawn : oracle.spawnOk = true)
    (hinit : oracle.initOk = true)
    (hi : i < spans.length)
    (hanchor : ¬((spans.getD i default).RefLine = 0
      ∧ (spans.getD i default).RefCol = 0))
    (hres : oracle.refs i = some locs) :
    ((FindReferences oracle spans filePath).1.getD i default).References
      = (spans.getD i default).References ++ locs.map mkReference := by
  unfold FindReferences
  cases hselc : selectAnalyzer filePath with
  | none => rw [hselc] at hsel; simp at hsel
  | some cfg =>
    simp only [hspawn, hinit, Bool.true_eq_false, if_false]
    have h0 : (queryLoop oracle 0 spans).getD i default
        = querySpan oracle i (spans.getD i default) := by
      rw [queryLoop_getD oracle spans 0 i hi, Nat.zero_add]
    rw [h0]
    unfold querySpan
    rw [if_neg hanchor, hres]

/-- Witness for C8: a query answering two locations in two different files
yields exactly those two references, with 1-based lines 5 and 10 from the
0-based inputs 4 and 9. -/
theorem C8_witness :
    ((FindReferences wOracle [wSpan] ("x.go".data)).1.getD 0 default).References
      = ([wSpan].getD 0 default).References ++ [wLoc1, wLoc2].map mkReference :=
  C8_references_appended wOracle [wSpan] ("x.go".data) 0 [wLoc1, wLoc2]
    (by decide) rfl rfl (by decide) (by decide) rfl

example :
    ((FindReferences wOracle [wSpan] ("x.go".data)).1.getD 0 default).References
      = [{ Path := "/w/a.go".data, Line := 5, Start := 2, End := 7,
           Context := [], ContextStartLine := 0 },
         { Path := "/w/b.go".data, Line := 10, Start := 0, End := 3,
           Context := [], ContextStartLine := 0 }] := by
  decide
